import Mathlib

/-!
Verification development for the bank-statement PDF extraction engine
(`custom_parsers/icici_parser.py` and `custom_parsers/sbi_parser.py`).

The Python code is shallowly embedded: each helper and the record-level
logic of both `parse` functions become executable Lean definitions over
lists of optional cell strings.  The external `pdfplumber` capability is
modelled as an `Except`-valued page/table/row structure handed to `parse`;
the `pandas` column operations are modelled cell-wise (they are applied
element-wise by the source).  `pd.to_numeric`, `pd.to_datetime` and
`str()` conversions of missing values are modelled on the input shapes the
parsers produce (plain decimal literals, day-first numeric dates,
`str(None) = "None"`, `str(nan) = "nan"`, `str(pd.NA) = "<NA>"`).
-/

set_option maxRecDepth 8000

/-! ### Basic Python string semantics on `List Char` / `String` -/

/-- Whitespace test used by Python `str.strip()` (ASCII fragment). -/
def wsB (c : Char) : Bool := c = ' ' || c = '\t' || c = '\n' || c = '\r'

/-- `str.strip()`: drop whitespace from both ends. -/
def charStrip (l : List Char) : List Char :=
  ((l.dropWhile wsB).reverse.dropWhile wsB).reverse

/-- `str.strip()` on `String`. -/
def pyStrip (s : String) : String := ⟨charStrip s.data⟩

/-- `str.lower()` (ASCII fragment). -/
def pyLower (s : String) : String := ⟨s.data.map Char.toLower⟩

/-- `l` begins with `sub` (Python-style list/str comparison). -/
def listStarts : List Char → List Char → Bool
  | [], _ => true
  | _ :: _, [] => false
  | a :: as, b :: bs => a = b && listStarts as bs

/-- Python `sub in l` substring test. -/
def containsSub (sub : List Char) : List Char → Bool
  | [] => sub.isEmpty
  | c :: t => listStarts sub (c :: t) || containsSub sub t

/-- Python `needle in hay` for strings. -/
def pyIn (needle hay : String) : Bool := containsSub needle.data hay.data

/-- Python `str.replace(old, "", 1)` for a single character: remove the
first occurrence. -/
def removeFirst (a : Char) : List Char → List Char
  | [] => []
  | c :: t => if c = a then t else c :: removeFirst a t

/-- Fuel-driven worker for `removeAll`; each step consumes at least one
character (`sub` is nonempty at every use site), so `l.length` fuel is
always enough. -/
def removeAllF (sub : List Char) : Nat → List Char → List Char
  | _, [] => []
  | 0, l => l
  | n + 1, c :: t =>
    if listStarts sub (c :: t) && !sub.isEmpty then removeAllF sub n ((c :: t).drop sub.length)
    else c :: removeAllF sub n t

/-- Python `str.replace(sub, "")`: remove every (leftmost, non-overlapping)
occurrence of `sub`. -/
def removeAll (sub : List Char) (l : List Char) : List Char :=
  removeAllF sub l.length l

/-- `str.replace(sub, "")` on `String`. -/
def sRemoveAll (s : String) (sub : String) : String := ⟨removeAll sub.data s.data⟩

/-- Value of a digit string (the parsers only meet ASCII digits). -/
def digitsVal (l : List Char) : Nat := l.foldl (fun a c => a * 10 + (c.toNat - 48)) 0

/-- Models `float(s)` / `pd.to_numeric(s, errors="coerce")` on the plain
decimal literals the parsers produce: optional sign, digits with at most
one decimal point, at least one digit.  Anything else (exponents, `inf`,
`nan` text, interior junk) coerces to missing, as the failing branch. -/
def parsePyFloat (s : String) : Option Rat :=
  let l := s.data
  let (neg, l) :=
    match l with
    | '-' :: t => (true, t)
    | '+' :: t => (false, t)
    | t => (false, t)
  let ip := l.takeWhile Char.isDigit
  let rest := l.dropWhile Char.isDigit
  let mag : Option Rat :=
    match rest with
    | [] => if ip.isEmpty then none else some (digitsVal ip)
    | '.' :: fr =>
      if fr.all Char.isDigit && !(ip.isEmpty && fr.isEmpty) then
        some ((digitsVal ip : Rat) + (digitsVal fr : Rat) / ((10 : Rat) ^ fr.length))
      else none
    | _ => none
  mag.map (fun q => if neg then -q else q)

/-- Python `enumerate` starting at `n`. -/
def enumFromN (n : Nat) : List α → List (Nat × α)
  | [] => []
  | a :: l => (n, a) :: enumFromN (n + 1) l

/-- In-order concatenation of per-element contributions. -/
def listJoinMap (g : α → List β) : List α → List β
  | [] => []
  | a :: l => g a ++ listJoinMap g l

/-- One body of a Python `for` loop that conditionally appends one
element to an accumulating list. -/
def emitStep (f : α → Option β) (a : List β) (x : α) : List β :=
  match f x with
  | none => a
  | some b => a ++ [b]

/-- `mapM` over `Except String`, stopping at the first error (models a
Python loop that may raise). -/
def eMapM (f : α → Except String β) : List α → Except String (List β)
  | [] => .ok []
  | a :: l =>
    match f a with
    | .error e => .error e
    | .ok b =>
      match eMapM f l with
      | .error e => .error e
      | .ok bs => .ok (b :: bs)

/-! ### Pandas cell values

A cell of an object column is either a live string or one of the three
missing-value objects Python distinguishes: `None`, `np.nan`, `pd.NA`.
`Series.astype(str)` applies `str()` element-wise, which renders the
missing objects as the literal texts below. -/

inductive PCell where
  | pyNone
  | npNan
  | pdNA
  | str (s : String)
deriving DecidableEq, Repr

/-- `str()` of a cell, as `Series.astype(str)` applies it. -/
def pyStrOf : PCell → String
  | .pyNone => "None"
  | .npNan => "nan"
  | .pdNA => "<NA>"
  | .str s => s

/-! ### ICICI parser (`custom_parsers/icici_parser.py`)

A raw table row is a `List (Option String)` (pdfplumber cells are optional
strings); a table is a list of rows; a page yields a list of tables. -/

namespace Icici

/-- `_normalize_header`: each header cell becomes a trimmed lowercase
string, `None` becoming `""`. -/
def normalizeHeader (header : List (Option String)) : List String :=
  header.map (fun h =>
    match h with
    | none => pyLower (pyStrip "")
    | some s => pyLower (pyStrip s))

/-- The `idx` dictionary built by `_find_col_indices`. -/
structure ColIdx where
  date : Option Nat
  description : Option Nat
  debit : Option Nat
  credit : Option Nat
  balance : Option Nat
deriving DecidableEq, Repr

def dateKw (h : String) : Bool := pyIn "date" h
def descKw (h : String) : Bool := pyIn "description" h || pyIn "narration" h
def debitKw (h : String) : Bool := pyIn "debit" h || pyIn "withdrawal" h
def creditKw (h : String) : Bool := pyIn "credit" h || pyIn "deposit" h
def balanceKw (h : String) : Bool := pyIn "balance" h || pyIn "closing balance" h

/-- One loop iteration of `_find_col_indices`: skip empty cells, and let
each keyword family claim index `i` if it has not claimed one yet. -/
def colStep (acc : ColIdx) (p : Nat × String) : ColIdx :=
  let i := p.1
  let h := p.2
  if h = "" then acc
  else
    { date := if dateKw h && acc.date.isNone then some i else acc.date
      description := if descKw h && acc.description.isNone then some i else acc.description
      debit := if debitKw h && acc.debit.isNone then some i else acc.debit
      credit := if creditKw h && acc.credit.isNone then some i else acc.credit
      balance := if balanceKw h && acc.balance.isNone then some i else acc.balance }

/-- `_find_col_indices`. -/
def findColIndices (headerNorm : List String) : ColIdx :=
  (enumFromN 0 headerNorm).foldl colStep ⟨none, none, none, none, none⟩

/-- Raw record with keys Date, Description, Debit Amt, Credit Amt, Balance. -/
structure Rec where
  date : Option String
  descr : Option String
  debit : Option String
  credit : Option String
  balance : Option String
deriving DecidableEq, Repr

/-- `row[idx] if idx is not None and idx < len(row) else None`. -/
def cellAt (row : List (Option String)) : Option Nat → Option String
  | none => none
  | some j => if j < row.length then row.getD j none else none

/-- Header-based mapping (lines 74–80). -/
def mappedRec (ci : ColIdx) (row : List (Option String)) : Rec :=
  ⟨cellAt row ci.date, cellAt row ci.description, cellAt row ci.debit,
   cellAt row ci.credit, cellAt row ci.balance⟩

/-- Length normalization of the fallback path (lines 86–90): pad with `""`
below 5 cells, truncate above 7. -/
def padTrunc (row : List (Option String)) : List (Option String) :=
  if row.length < 5 then row ++ List.replicate (5 - row.length) (some "")
  else if row.length > 7 then row.take 7
  else row

/-- Direct 5-column positional mapping (lines 93–102). -/
def positional5 (r : List (Option String)) : Rec :=
  ⟨r.getD 0 none, r.getD 1 none, r.getD 2 none, r.getD 3 none, r.getD 4 none⟩

/-- Crude numeric-like test of the heuristic branch (lines 107–112):
strip, remove commas, drop one `.` and one `-`, then Python `isdigit`. -/
def numericLike (val : Option String) : Bool :=
  let s :=
    match val with
    | none => ""
    | some s => pyStrip s
  let c := removeAll ",".data s.data
  let c := removeFirst '.' c
  let c := removeFirst '-' c
  !c.isEmpty && c.all Char.isDigit

/-- `str(v)` of a raw cell (only ever applied to `some` cells in practice). -/
def strOfCell : Option String → String
  | none => "None"
  | some s => s

/-- The numeric-rightmost heuristic (lines 104–149).  In the source this
code is reachable only when `len(r) < 5` after normalization, which never
happens; it is embedded for fidelity. -/
def heuristicRec (r : List (Option String)) : Rec :=
  let nums := (enumFromN 0 r).filter (fun p => numericLike p.2)
  match nums.getLast? with
  | none => ⟨r.getD 0 none, r.getD 1 none, none, none, none⟩
  | some (_, balanceVal) =>
    let remaining := nums.dropLast
    let dc : Option String × Option String :=
      match remaining with
      | [] => (none, none)
      | [(_, v)] =>
        if listStarts "-".data (pyStrip (strOfCell v)).data then (v, none) else (none, v)
      | (_, d) :: (_, c) :: _ => (d, c)
    ⟨r.getD 0 none, r.getD 1 none, dc.1, dc.2, balanceVal⟩

/-- The whole fallback path for one row (lines 84–149). -/
def fallbackRec (row : List (Option String)) : Rec :=
  let r := padTrunc row
  if 5 ≤ r.length then positional5 r
  else heuristicRec r

/-- Row handling inside a table: empty rows are skipped (`if not row`),
otherwise the row yields one record, mapped or positional. -/
def rowEmit (ci : ColIdx) (fb : Bool) (row : List (Option String)) : Option Rec :=
  if row = [] then none
  else some (if fb then fallbackRec row else mappedRec ci row)

/-- `all(v is None for v in col_idx.values())`. -/
def fallbackB (ci : ColIdx) : Bool :=
  ci.date.isNone && ci.description.isNone && ci.debit.isNone &&
    ci.credit.isNone && ci.balance.isNone

/-- Per-table record list, in row order (specification form). -/
def tableRecs (t : List (List (Option String))) : List Rec :=
  match t with
  | [] => []
  | [_] => []
  | hdr :: rows =>
    let ci := findColIndices (normalizeHeader hdr)
    rows.filterMap (rowEmit ci (fallbackB ci))

/-- Per-table step as the source performs it: tables with fewer than two
rows are skipped, other rows append one record each to the accumulator. -/
def tableStep (acc : List Rec) (t : List (List (Option String))) : List Rec :=
  match t with
  | [] => acc
  | [_] => acc
  | hdr :: rows =>
    let ci := findColIndices (normalizeHeader hdr)
    let fb := fallbackB ci
    rows.foldl (emitStep (rowEmit ci fb)) acc

/-- The accumulation loop over pages and tables (lines 55–149). -/
def collect (pages : List (List (List (List (Option String))))) : List Rec :=
  pages.foldl (fun acc page => page.foldl tableStep acc) []

/-- `_clean_string_series`, element-wise: `astype(str)`, `strip`, then the
exact-match replacement of `""`/`"none"`/`"nan"` by `pd.NA`. -/
def cleanStringCell (c : PCell) : PCell :=
  let t := pyStrip (pyStrOf c)
  if t = "" ∨ t = "none" ∨ t = "nan" then .pdNA else .str t

/-- `_clean_numeric_series`, element-wise: `astype(str)`, remove `","` and
`"..."`, `strip`, replace a lone `"-"` by `""`, replace `""` by `nan`,
then `pd.to_numeric(errors="coerce")`. -/
def cleanNumericCell (c : PCell) : Option Rat :=
  let s := pyStrOf c
  let s := sRemoveAll s ","
  let s := sRemoveAll s "..."
  let s := pyStrip s
  let s := if s = "-" then "" else s
  if s = "" then none else parsePyFloat s

/-- A raw record cell as the object-column value pandas stores for it. -/
def toPCell : Option String → PCell
  | none => .pyNone
  | some s => .str s

/-- A coerced record: string columns keep their pandas cell object,
numeric columns are nullable floats. -/
structure CRec where
  date : PCell
  descr : PCell
  debit : Option Rat
  credit : Option Rat
  balance : Option Rat
deriving DecidableEq, Repr

/-- `Series.replace(0, pd.NA)` element-wise. -/
def zeroToNull (v : Option Rat) : Option Rat :=
  if v = some 0 then none else v

/-- Column cleaning of lines 154–162, row-wise (the pandas operations are
element-wise, so per-column and per-row application agree). -/
def cleanRec (r : Rec) : CRec :=
  { date := cleanStringCell (toPCell r.date)
    descr := cleanStringCell (toPCell r.descr)
    debit := zeroToNull (cleanNumericCell (toPCell r.debit))
    credit := zeroToNull (cleanNumericCell (toPCell r.credit))
    balance := cleanNumericCell (toPCell r.balance) }

def cleanAll (rs : List Rec) : List CRec := rs.map cleanRec

/-- A value of the reconciled output table. -/
inductive OutCell where
  | null
  | num (q : Rat)
  | txt (s : String)
deriving DecidableEq, Repr

def pcellOut : PCell → OutCell
  | .str s => .txt s
  | _ => .null

def ratOut : Option Rat → OutCell
  | none => .null
  | some q => .num q

/-- Column projection of a coerced record by output column name. -/
def colVal (r : CRec) : String → OutCell
  | "Date" => pcellOut r.date
  | "Description" => pcellOut r.descr
  | "Debit Amt" => ratOut r.debit
  | "Credit Amt" => ratOut r.credit
  | "Balance" => ratOut r.balance
  | _ => .null

/-- The five columns of the constructed DataFrame. -/
def fiveColsB (c : String) : Bool :=
  c = "Date" || c = "Description" || c = "Debit Amt" || c = "Credit Amt" || c = "Balance"

/-- `astype` of one value to a float dtype: floats and missing pass,
strings must parse as Python floats or a `ValueError` is raised. -/
def castNum : OutCell → Except String OutCell
  | .null => .ok .null
  | .num q => .ok (.num q)
  | .txt s =>
    match parsePyFloat (pyStrip s) with
    | some q => .ok (.num q)
    | none => .error "ValueError"

/-- One column of the reconciliation loop (lines 167–174): numeric dtypes
cast every value, other dtypes pass the column through. -/
def castCol (rs : List CRec) (name : String) (isNum : Bool) : Except String (List OutCell) :=
  if isNum then eMapM castNum (rs.map (fun r => colVal r name))
  else .ok (rs.map (fun r => colVal r name))

/-- Final reconciliation (lines 164–174).  The reference CSV is modelled
as `Option` (missing file raises) of a list of (column name, numeric
dtype?) pairs in file order; `df[expected.columns]` raises a `KeyError`
when a requested column is not one of the five. -/
def reconcile (csv : Option (List (String × Bool))) (rs : List CRec) :
    Except String (List (String × List OutCell)) :=
  match csv with
  | none => .error "FileNotFoundError"
  | some sch =>
    if sch.all (fun c => fiveColsB c.1) then
      eMapM (fun c => (castCol rs c.1 c.2).map (fun vs => (c.1, vs))) sch
    else .error "KeyError"

/-- `parse`: the pdfplumber capability either fails to open the file (the
error propagates, there is no handler) or yields pages of tables. -/
def parse (pdf : Except String (List (List (List (List (Option String))))))
    (csv : Option (List (String × Bool))) :
    Except String (List (String × List OutCell)) :=
  match pdf with
  | .error e => .error e
  | .ok pages => reconcile csv (cleanAll (collect pages))

end Icici

/-! ### SBI parser (`custom_parsers/sbi_parser.py`) -/

namespace Sbi

/-- Cell normalization for header matching (line 52): `str(cell)` then
`.lower().strip().replace(chr 10, chr 32)`, `None` becoming `""`. -/
def cleanCell : Option String → String
  | none => ""
  | some s => sRemoveAll2 (pyStrip (pyLower s))
where
  /-- `.replace(newline, space)` as the source applies it last. -/
  sRemoveAll2 (s : String) : String := ⟨replNl s.data⟩
  replNl : List Char → List Char
    | [] => []
    | c :: t => (if c = '\n' then ' ' else c) :: replNl t

/-- `column_keyword_map`, in insertion (iteration) order. -/
def keywordMap : List (String × List String) :=
  [("Date", ["date", "txn date", "transaction date"]),
   ("Description", ["description", "particulars", "particular"]),
   ("Debit Amt", ["debit", "withdrawal", "amount (dr)", "amt.dr", "amountdr"]),
   ("Credit Amt", ["credit", "deposit", "amount (cr)", "amt.cr", "amountcr"]),
   ("Balance", ["balance", "closing balance", "cl bal", "closingbal", "available balance"])]

/-- `c_idx in temp_mapping` lookup; `temp_mapping` is kept as an
association list in insertion order (a Python dict). -/
def lookupIdx (m : List (Nat × String)) (i : Nat) : Option String :=
  (m.find? (fun p => p.1 = i)).map (fun p => p.2)

/-- The scan of one keyword over the cleaned row (lines 60–67): claim the
first cell containing the keyword whose index is unclaimed, then break.
Returns the new mapping and the value the loop variable `c_idx` leaks
(the break index, or the last index when the loop runs out; rows are
nonempty in practice, `0` stands in for the unbound case). -/
def scanKeyword (kw colName : String) (m : List (Nat × String)) :
    List (Nat × String) → List (Nat × String) × Nat
  | [] => (m, 0)
  | (i, cell) :: rest =>
    if pyIn kw cell && (lookupIdx m i).isNone then (m ++ [(i, colName)], i)
    else
      match rest with
      | [] => (m, i)
      | _ :: _ => scanKeyword kw colName m rest

/-- The keyword loop for one target column (lines 59–70): after each
keyword's cell scan, break when the leaked `c_idx` is mapped to this very
column (which is exactly the just-claimed case). -/
def scanKeywords (colName : String) (cells : List (Nat × String)) :
    List String → List (Nat × String) → List (Nat × String)
  | [], m => m
  | kw :: kws, m =>
    let r := scanKeyword kw colName m cells
    if lookupIdx r.1 r.2 = some colName then r.1
    else scanKeywords colName cells kws r.1

/-- `temp_mapping` for one cleaned row (lines 54–70). -/
def tempMapping (cleanRow : List String) : List (Nat × String) :=
  keywordMap.foldl (fun m p => scanKeywords p.1 (enumFromN 0 cleanRow) p.2 m) []

/-- `temp_mapping` for one raw row. -/
def rowMapping (row : List (Option String)) : List (Nat × String) :=
  tempMapping (row.map cleanCell)

def hasVal (m : List (Nat × String)) (v : String) : Bool :=
  m.any (fun p => p.2 = v)

/-- `is_likely_header` (lines 75–76); `found_keys_count` equals the size
of `temp_mapping` because it is incremented exactly at each insertion. -/
def isLikelyHeader (m : List (Nat × String)) : Bool :=
  (hasVal m "Date" && decide (3 ≤ m.length)) ||
    (hasVal m "Date" && hasVal m "Description" && hasVal m "Balance")

/-- Header scan (lines 49–81): first row whose mapping qualifies. -/
def findHeaderAux : Nat → List (List (Option String)) → Option (Nat × List (Nat × String))
  | _, [] => none
  | i, r :: rs =>
    let m := rowMapping r
    if isLikelyHeader m then some (i, m) else findHeaderAux (i + 1) rs

def findHeader (t : List (List (Option String))) : Option (Nat × List (Nat × String)) :=
  findHeaderAux 0 t

/-- A transaction dict: each key may be absent (`none`) or hold a raw
cell, which is itself an optional string. -/
structure Tx where
  date : Option (Option String)
  descr : Option (Option String)
  debit : Option (Option String)
  credit : Option (Option String)
  balance : Option (Option String)
deriving DecidableEq, Repr

def emptyTx : Tx := ⟨none, none, none, none, none⟩

def setTx (tx : Tx) (name : String) (v : Option String) : Tx :=
  if name = "Date" then { tx with date := some v }
  else if name = "Description" then { tx with descr := some v }
  else if name = "Debit Amt" then { tx with debit := some v }
  else if name = "Credit Amt" then { tx with credit := some v }
  else if name = "Balance" then { tx with balance := some v }
  else tx

/-- Building the transaction dict from a data row (lines 91–96). -/
def buildTx (m : List (Nat × String)) (row : List (Option String)) : Tx :=
  (enumFromN 0 row).foldl (fun tx p =>
    match lookupIdx m p.1 with
    | some name => setTx tx name p.2
    | none => tx) emptyTx

/-- Python truthiness of `transaction.get(k)`: present, not `None`, and
not the empty string. -/
def truthy : Option (Option String) → Bool
  | some (some s) => !(s = "")
  | _ => false

/-- `str(transaction.get("Description", ""))`. -/
def descRaw : Option (Option String) → String
  | none => ""
  | some none => "None"
  | some (some s) => s

/-- The footer-keyword filter of line 109 on the lowered description. -/
def kwHit (tx : Tx) : Bool :=
  let d := pyLower (descRaw tx.descr)
  pyIn "total" d || pyIn "page" d || pyIn "balance brought forward" d ||
    pyIn "balance carried forward" d

/-- Row admission (lines 100–110): Date truthy, one further truthy field,
and no footer keyword in the description. -/
def rowTx (m : List (Nat × String)) (row : List (Option String)) : Option Tx :=
  let tx := buildTx m row
  if (truthy tx.date &&
      (truthy tx.descr || truthy tx.debit || truthy tx.credit || truthy tx.balance)) &&
      !kwHit tx then
    some tx
  else none

/-- Per-table record list in row order (specification form): tables with
no qualifying header row contribute nothing. -/
def tableRecs (t : List (List (Option String))) : List Tx :=
  match findHeader t with
  | none => []
  | some (i, m) => (t.drop (i + 1)).filterMap (rowTx m)

/-- Per-table step as the source performs it. -/
def tableStep (acc : List Tx) (t : List (List (Option String))) : List Tx :=
  match findHeader t with
  | none => acc
  | some (i, m) =>
    (t.drop (i + 1)).foldl (emitStep (rowTx m)) acc

/-- The `all_transactions_data` accumulation over pages and tables. -/
def collect (pages : List (List (List (List (Option String))))) : List Tx :=
  pages.foldl (fun acc page => page.foldl tableStep acc) []

/-- Numeric cleaning (lines 130–138), element-wise: `astype(str)` (an
absent key surfaced as `nan`, a `None` cell as `None`), keep only digits,
`.` and `-`, replace `""` by `nan`, `to_numeric(errors="coerce")`, and
`fillna(0.0)`. -/
def numKeep (c : Char) : Bool := c.isDigit || c = '.' || c = '-'

def keepNumChars (s : String) : String := ⟨s.data.filter numKeep⟩

def numericClean (c : Option (Option String)) : Rat :=
  let s :=
    match c with
    | none => "nan"
    | some none => "None"
    | some (some s) => s
  let s := keepNumChars s
  if s = "" then 0
  else
    match parsePyFloat s with
    | some q => q
    | none => 0

/-- Date cleaning (lines 141–146): `pd.to_datetime(dayfirst, coerce)`
modelled on day-month-year digit strings split by `/` or `-`; everything
else (absent, `None`, other shapes) coerces to `NaT` and the row is
dropped by `dropna`.  `dt.normalize` is the identity on date-only
values. -/
def allDigits (l : List Char) : Bool := !l.isEmpty && l.all Char.isDigit

/-- Python `str.split(sep)` for a single-character separator. -/
def splitOnChar (sep : Char) : List Char → List (List Char)
  | [] => [[]]
  | c :: t =>
    let r := splitOnChar sep t
    if c = sep then [] :: r
    else
      match r with
      | [] => [[c]]
      | h :: rt => (c :: h) :: rt

def parseDayFirst (s : String) : Option (Nat × Nat × Nat) :=
  let parts :=
    let p := splitOnChar '/' s.data
    if p.length = 3 then p else splitOnChar '-' s.data
  match parts with
  | [d, m, y] =>
    if allDigits d && allDigits m && allDigits y && decide (y.length = 4) then
      let dn := digitsVal d
      let mn := digitsVal m
      if 1 ≤ dn && dn ≤ 31 && 1 ≤ mn && mn ≤ 12 then some (dn, mn, digitsVal y)
      else none
    else none
  | _ => none

def dateClean (c : Option (Option String)) : Option (Nat × Nat × Nat) :=
  match c with
  | some (some s) => parseDayFirst s
  | _ => none

/-- One attempted match of the fixed page-artifact pattern
`ws* "("? "page" ws* digit+ ws* "of" ws* digit+ ")"? ws*`
(case-insensitive) at the head of the list; on success returns the
remainder after the match.  The pattern's pieces cannot compete for the
same characters, so maximal munch agrees with the regex engine. -/
def matchPage (l : List Char) : Option (List Char) :=
  let l := l.dropWhile wsB
  let l := match l with
    | '(' :: t => t
    | t => t
  match l with
  | p :: a :: g :: e :: t =>
    if p.toLower = 'p' && a.toLower = 'a' && g.toLower = 'g' && e.toLower = 'e' then
      let t := t.dropWhile wsB
      let d1 := t.takeWhile Char.isDigit
      let t := t.dropWhile Char.isDigit
      if d1.isEmpty then none
      else
        let t := t.dropWhile wsB
        match t with
        | o :: f :: t2 =>
          if o.toLower = 'o' && f.toLower = 'f' then
            let t2 := t2.dropWhile wsB
            let d2 := t2.takeWhile Char.isDigit
            let t2 := t2.dropWhile Char.isDigit
            if d2.isEmpty then none
            else
              let t2 := match t2 with
                | ')' :: r => r
                | r => r
              some (t2.dropWhile wsB)
          else none
        | _ => none
    else none
  | _ => none

/-- `re.sub` driver: scan left to right, removing each match (every match
consumes at least the four `page` letters, so `l.length` fuel suffices). -/
def pageSubF : Nat → List Char → List Char
  | _, [] => []
  | 0, l => l
  | n + 1, c :: t =>
    match matchPage (c :: t) with
    | some rest => pageSubF n rest
    | none => c :: pageSubF n t

def pageSub (l : List Char) : List Char := pageSubF l.length l

/-- Description cleaning (lines 149–154): `astype(str)`, `strip`, the
page-artifact removal, then the exact replacement of `"nan"` by `""`. -/
def descClean (c : Option (Option String)) : String :=
  let raw :=
    match c with
    | none => "nan"
    | some none => "None"
    | some (some s) => s
  let s := pyStrip raw
  let s : String := ⟨pageSub s.data⟩
  if s = "nan" then "" else s

/-- A fully cleaned output row. -/
structure SRow where
  date : Nat × Nat × Nat
  descr : String
  debit : Rat
  credit : Rat
  balance : Rat
deriving DecidableEq, Repr

/-- Row-wise form of the cleaning of lines 127–158: numeric coercion,
date coercion with `dropna(subset=["Date"])`, description cleanup, then
the final empty-description/all-zero filter.  All source operations are
element-wise per column, with filters only reading their own row, so the
column-wise source order and this row-wise order agree; the last
`dropna(how="all")` never fires (Date is never null here) and is the
identity. -/
def cleanTx (tx : Tx) : Option SRow :=
  (dateClean tx.date).map (fun d =>
    ⟨d, descClean tx.descr, numericClean tx.debit, numericClean tx.credit,
      numericClean tx.balance⟩)

def junk (r : SRow) : Bool :=
  r.descr = "" && r.debit = 0 && r.credit = 0 && r.balance = 0

def cleanAll (txs : List Tx) : List SRow :=
  (txs.filterMap cleanTx).filter (fun r => !junk r)

/-- `parse`: the whole extraction loop runs inside `try/except Exception`,
so an unreadable input produces the empty, correctly-shaped table instead
of propagating; afterwards an empty accumulation also returns the empty
table. -/
def parse (pdf : Except String (List (List (List (List (Option String)))))) : List SRow :=
  match pdf with
  | .error _ => []
  | .ok pages =>
    let txs := collect pages
    if txs = [] then [] else cleanAll txs

end Sbi

/-- First enumerated index whose (nonempty) cell satisfies `p`. -/
def firstIdx (p : String → Bool) (l : List (Nat × String)) : Option Nat :=
  (l.find? (fun q => !(q.2 = "") && p q.2)).map Prod.fst

def myOrElse (o : Option Nat) (f : Option Nat) : Option Nat :=
  match o with
  | some j => some j
  | none => f

/-- Table fixture for the C3 witness: a noise row, then a genuine header,
then a data row. -/
def c3Table : List (List (Option String)) :=
  [[some "Account Statement"],
   [some "Txn Date", some "Particulars", some "Withdrawal", some "Deposit",
    some "Closing Balance"],
   [some "01/01/2025", some "PAYMENT", some "100", some "", some "5000"]]

/-- Table fixture for the C5 witness. -/
def c5Table : List (List (Option String)) :=
  [[some "Txn Date", some "Particulars", some "Withdrawal", some "Deposit",
    some "Closing Balance"],
   [some "01/01/2025", some "PAYMENT", some "100", some "", some "5000"]]

/-! ### Helper lemmas: stripping -/

theorem dropWhile_dropWhile (p : α → Bool) (l : List α) :
    (l.dropWhile p).dropWhile p = l.dropWhile p := by
  induction l with
  | nil => rfl
  | cons a t ih =>
    cases h : p a with
    | true => simp [List.dropWhile_cons, h, ih]
    | false => simp [List.dropWhile_cons, h]

theorem mem_dropWhile_of_not (p : α → Bool) {x : α} (hx : p x = false) :
    ∀ {l : List α}, x ∈ l → x ∈ l.dropWhile p := by
  intro l
  induction l with
  | nil => intro h; cases h
  | cons a t ih =>
    intro h
    cases hpa : p a with
    | true =>
      rw [List.dropWhile_cons_of_pos hpa]
      rcases List.mem_cons.mp h with h1 | h2
      · subst h1; rw [hx] at hpa; cases hpa
      · exact ih h2
    | false =>
      rw [List.dropWhile_cons_of_neg (by simp [hpa])]
      exact h

theorem mem_charStrip {x : Char} (hx : wsB x = false) {l : List Char} (h : x ∈ l) :
    x ∈ charStrip l := by
  unfold charStrip
  have h1 : x ∈ l.dropWhile wsB := mem_dropWhile_of_not wsB hx h
  have h2 : x ∈ (l.dropWhile wsB).reverse := List.mem_reverse.mpr h1
  have h3 : x ∈ (l.dropWhile wsB).reverse.dropWhile wsB := mem_dropWhile_of_not wsB hx h2
  exact List.mem_reverse.mpr h3

theorem charStrip_decomp (l : List Char) :
    ∃ a b, l = a ++ (charStrip l ++ b) ∧ (∀ x ∈ a, wsB x = true) ∧ (∀ x ∈ b, wsB x = true) := by
  refine ⟨l.takeWhile wsB, ((l.dropWhile wsB).reverse.takeWhile wsB).reverse, ?_, ?_, ?_⟩
  · have h1 : l = l.takeWhile wsB ++ l.dropWhile wsB :=
      (List.takeWhile_append_dropWhile wsB l).symm
    have h2 : l.dropWhile wsB =
        charStrip l ++ ((l.dropWhile wsB).reverse.takeWhile wsB).reverse := by
      unfold charStrip
      conv_lhs => rw [← List.reverse_reverse (l.dropWhile wsB)]
      conv_lhs =>
        rw [← List.takeWhile_append_dropWhile wsB ((l.dropWhile wsB).reverse)]
      rw [List.reverse_append]
    conv_lhs => rw [h1, h2]
  · intro x hx; exact List.mem_takeWhile_imp hx
  · intro x hx; exact List.mem_takeWhile_imp (List.mem_reverse.mp hx)

theorem dropWhile_of_prefix {p : α → Bool} {m l : List α} (hl : l.dropWhile p = l)
    (hpre : m <+: l) : m.dropWhile p = m := by
  cases m with
  | nil => rfl
  | cons c t =>
    obtain ⟨r, hr⟩ := hpre
    cases l with
    | nil => cases hr
    | cons a u =>
      rw [List.cons_append] at hr
      injection hr with hca hru
      subst hca
      cases hp : p c with
      | true =>
        exfalso
        rw [List.dropWhile_cons_of_pos hp] at hl
        have hlen := congrArg List.length hl
        have hle : (u.dropWhile p).length ≤ u.length :=
          (List.dropWhile_suffix p).sublist.length_le
        simp at hlen
        omega
      | false =>
        rw [List.dropWhile_cons_of_neg (by simp [hp])]

theorem charStrip_of_clean {m : List Char} (h1 : m.dropWhile wsB = m)
    (h2 : m.reverse.dropWhile wsB = m.reverse) : charStrip m = m := by
  unfold charStrip
  rw [h1, h2, List.reverse_reverse]

theorem charStrip_idem (l : List Char) : charStrip (charStrip l) = charStrip l := by
  have hg : (l.dropWhile wsB).dropWhile wsB = l.dropWhile wsB := dropWhile_dropWhile wsB l
  have hpre : ((l.dropWhile wsB).reverse.dropWhile wsB).reverse <+: l.dropWhile wsB := by
    have hs : (l.dropWhile wsB).reverse.dropWhile wsB <:+ (l.dropWhile wsB).reverse :=
      List.dropWhile_suffix wsB
    have := List.reverse_prefix.mpr hs
    rwa [List.reverse_reverse] at this
  have h1 : (charStrip l).dropWhile wsB = charStrip l :=
    dropWhile_of_prefix hg hpre
  have h2 : (charStrip l).reverse.dropWhile wsB = (charStrip l).reverse := by
    have hrev : (charStrip l).reverse = (l.dropWhile wsB).reverse.dropWhile wsB := by
      unfold charStrip
      rw [List.reverse_reverse]
    rw [hrev]
    exact dropWhile_dropWhile wsB (l.dropWhile wsB).reverse
  exact charStrip_of_clean h1 h2

theorem pyStrip_idem (s : String) : pyStrip (pyStrip s) = pyStrip s :=
  congrArg String.mk (charStrip_idem s.data)

/-! ### Helper lemmas: replacement -/

theorem removeAllF_single (a : Char) :
    ∀ (n : Nat) (l : List Char), l.length ≤ n →
      removeAllF [a] n l = l.filter (fun c => !(c = a)) := by
  intro n
  induction n with
  | zero =>
    intro l hl
    cases l with
    | nil => rfl
    | cons c t => simp at hl
  | succ n ih =>
    intro l hl
    cases l with
    | nil => rfl
    | cons c t =>
      have ht : t.length ≤ n := by simpa using hl
      by_cases hac : a = c
      · subst hac
        simp [removeAllF, listStarts, List.filter_cons, ih t ht]
      · have hca : ¬(c = a) := fun h => hac h.symm
        simp [removeAllF, listStarts, hac, hca, List.filter_cons, ih t ht]

theorem removeAll_single (a : Char) (l : List Char) :
    removeAll [a] l = l.filter (fun c => !(c = a)) :=
  removeAllF_single a l.length l (Nat.le_refl _)

theorem removeAllF_not_head (h : Char) (hs : List Char) :
    ∀ (n : Nat) (l : List Char), h ∉ l → removeAllF (h :: hs) n l = l := by
  intro n
  induction n with
  | zero =>
    intro l _
    cases l with
    | nil => rfl
    | cons c t => rfl
  | succ n ih =>
    intro l hmem
    cases l with
    | nil => rfl
    | cons c t =>
      have hne : ¬(h = c) := fun he => hmem (he ▸ List.mem_cons_self c t)
      have h1 : listStarts (h :: hs) (c :: t) = false := by
        simp [listStarts, hne]
      simp [removeAllF, h1, ih t (fun ht => hmem (List.mem_cons_of_mem c ht))]

theorem removeAll_not_head (h : Char) (hs : List Char) (l : List Char) (hmem : h ∉ l) :
    removeAll (h :: hs) l = l :=
  removeAllF_not_head h hs l.length l hmem

/-! ### Helper lemmas: accumulation order -/

theorem foldl_emit_eq (f : α → Option β) (l : List α) (acc : List β) :
    l.foldl (emitStep f) acc = acc ++ l.filterMap f := by
  induction l generalizing acc with
  | nil => simp
  | cons x t ih =>
    simp only [List.foldl_cons, List.filterMap_cons]
    cases hfx : f x with
    | none =>
      rw [show emitStep f acc x = acc by simp [emitStep, hfx], ih]
    | some b =>
      rw [show emitStep f acc x = acc ++ [b] by simp [emitStep, hfx], ih]
      simp

theorem foldl_table (g : α → List β) (f : List β → α → List β)
    (hf : ∀ acc x, f acc x = acc ++ g x) (l : List α) (acc : List β) :
    l.foldl f acc = acc ++ listJoinMap g l := by
  induction l generalizing acc with
  | nil => simp [listJoinMap]
  | cons x t ih =>
    simp only [List.foldl_cons, listJoinMap]
    rw [hf, ih, List.append_assoc]

theorem icici_tableStep_eq (acc : List Icici.Rec) (t : List (List (Option String))) :
    Icici.tableStep acc t = acc ++ Icici.tableRecs t := by
  match t with
  | [] => simp [Icici.tableStep, Icici.tableRecs]
  | [hdr] => simp [Icici.tableStep, Icici.tableRecs]
  | hdr :: r :: rs =>
    show (r :: rs).foldl _ acc = acc ++ (r :: rs).filterMap _
    exact foldl_emit_eq _ _ _

theorem icici_collect_eq (pages : List (List (List (List (Option String))))) :
    Icici.collect pages = listJoinMap (fun pg => listJoinMap Icici.tableRecs pg) pages := by
  unfold Icici.collect
  rw [foldl_table (fun pg => listJoinMap Icici.tableRecs pg) _
    (fun acc pg => foldl_table Icici.tableRecs _ icici_tableStep_eq pg acc) pages []]
  simp

theorem sbi_tableStep_eq (acc : List Sbi.Tx) (t : List (List (Option String))) :
    Sbi.tableStep acc t = acc ++ Sbi.tableRecs t := by
  unfold Sbi.tableStep Sbi.tableRecs
  cases h : Sbi.findHeader t with
  | none => simp
  | some im =>
    obtain ⟨i, m⟩ := im
    show (t.drop (i + 1)).foldl (emitStep (Sbi.rowTx m)) acc =
      acc ++ (t.drop (i + 1)).filterMap (Sbi.rowTx m)
    exact foldl_emit_eq _ _ _

theorem sbi_collect_eq (pages : List (List (List (List (Option String))))) :
    Sbi.collect pages = listJoinMap (fun pg => listJoinMap Sbi.tableRecs pg) pages := by
  unfold Sbi.collect
  rw [foldl_table (fun pg => listJoinMap Sbi.tableRecs pg) _
    (fun acc pg => foldl_table Sbi.tableRecs _ sbi_tableStep_eq pg acc) pages []]
  simp

theorem icici_cleanAll_append (a b : List Icici.Rec) :
    Icici.cleanAll (a ++ b) = Icici.cleanAll a ++ Icici.cleanAll b := by
  unfold Icici.cleanAll
  exact List.map_append _ a b

theorem sbi_cleanAll_append (a b : List Sbi.Tx) :
    Sbi.cleanAll (a ++ b) = Sbi.cleanAll a ++ Sbi.cleanAll b := by
  unfold Sbi.cleanAll
  rw [List.filterMap_append, List.filter_append]

/-! ### Helper lemmas: ICICI fallback normalization -/

theorem icici_padTrunc_len (row : List (Option String)) : 5 ≤ (Icici.padTrunc row).length := by
  unfold Icici.padTrunc
  split_ifs with h1 h2
  · simp only [List.length_append, List.length_replicate]
    omega
  · simp only [List.length_take]
    omega
  · omega

theorem icici_fallback_positional (row : List (Option String)) :
    Icici.fallbackRec row = Icici.positional5 (Icici.padTrunc row) := by
  unfold Icici.fallbackRec
  rw [if_pos (icici_padTrunc_len row)]

/-! ### Helper lemmas: ICICI string-cleaning fixed points -/

theorem icici_cleanString_fix {c : PCell} {s : String}
    (h : Icici.cleanStringCell c = .str s) : Icici.cleanStringCell (.str s) = .str s := by
  unfold Icici.cleanStringCell at h
  by_cases hcond : pyStrip (pyStrOf c) = "" ∨ pyStrip (pyStrOf c) = "none" ∨
      pyStrip (pyStrOf c) = "nan"
  · rw [if_pos hcond] at h
    cases h
  · rw [if_neg hcond] at h
    injection h with hs
    subst hs
    show (if pyStrip (pyStrip (pyStrOf c)) = "" ∨ pyStrip (pyStrip (pyStrOf c)) = "none" ∨
        pyStrip (pyStrip (pyStrOf c)) = "nan" then PCell.pdNA
      else PCell.str (pyStrip (pyStrip (pyStrOf c)))) = PCell.str (pyStrip (pyStrOf c))
    rw [pyStrip_idem, if_neg hcond]

/-! ### Helper lemmas: SBI header scan is a first-match scan -/

theorem sbi_findHeaderAux_spec :
    ∀ (rs : List (List (Option String))) (k i : Nat) (m : List (Nat × String)),
      Sbi.findHeaderAux k rs = some (i, m) →
      ∃ j, i = k + j ∧ ∃ r, rs[j]? = some r ∧ m = Sbi.rowMapping r ∧
        Sbi.isLikelyHeader m = true ∧
        ∀ j2 r2, j2 < j → rs[j2]? = some r2 →
          Sbi.isLikelyHeader (Sbi.rowMapping r2) = false := by
  intro rs
  induction rs with
  | nil => intro k i m h; cases h
  | cons r rest ih =>
    intro k i m h
    unfold Sbi.findHeaderAux at h
    cases hq : Sbi.isLikelyHeader (Sbi.rowMapping r) with
    | true =>
      rw [if_pos hq] at h
      injection h with h2
      injection h2 with hi hm
      refine ⟨0, by omega, r, by simp, hm.symm, ?_, ?_⟩
      · rw [← hm]; exact hq
      · intro j2 r2 hj2; omega
    | false =>
      rw [if_neg (by simp [hq])] at h
      obtain ⟨j, hij, r2, hget, hm, hqual, hmin⟩ := ih (k + 1) i m h
      refine ⟨j + 1, by omega, r2, by simpa using hget, hm, hqual, ?_⟩
      intro j3 r3 hj3 hget3
      match j3, hget3 with
      | 0, hget3 =>
        have hr3 : r = r3 := by simpa using hget3
        rw [← hr3]
        exact hq
      | j4 + 1, hget3 =>
        exact hmin j4 r3 (by omega) (by simpa using hget3)

/-! ### Helper lemmas: ICICI column scan characterization -/

theorem myOrElse_none (o : Option Nat) : myOrElse o none = o := by
  cases o <;> rfl

theorem firstIdx_cons (p : String → Bool) (i : Nat) (h : String) (t : List (Nat × String)) :
    firstIdx p ((i, h) :: t) = if !(h = "") && p h then some i else firstIdx p t := by
  unfold firstIdx
  cases hc : (!(h = "") && p h) with
  | true => simp [List.find?_cons, hc]
  | false => simp [List.find?_cons, hc]

theorem colField_step (p : String → Bool) (i : Nat) (h : String) (t : List (Nat × String))
    (o : Option Nat) (hne : ¬(h = "")) :
    myOrElse (if p h && o.isNone then some i else o) (firstIdx p t) =
      myOrElse o (firstIdx p ((i, h) :: t)) := by
  rw [firstIdx_cons]
  cases o with
  | some j => cases hp : p h <;> simp [myOrElse, hp, hne]
  | none => cases hp : p h <;> simp [myOrElse, hp, hne]

theorem icici_colFold_char :
    ∀ (l : List (Nat × String)) (acc : Icici.ColIdx),
      l.foldl Icici.colStep acc =
        ⟨myOrElse acc.date (firstIdx Icici.dateKw l),
         myOrElse acc.description (firstIdx Icici.descKw l),
         myOrElse acc.debit (firstIdx Icici.debitKw l),
         myOrElse acc.credit (firstIdx Icici.creditKw l),
         myOrElse acc.balance (firstIdx Icici.balanceKw l)⟩ := by
  intro l
  induction l with
  | nil =>
    intro acc
    simp only [List.foldl_nil, firstIdx, List.find?_nil]
    show acc = ⟨myOrElse acc.date none, myOrElse acc.description none, myOrElse acc.debit none,
      myOrElse acc.credit none, myOrElse acc.balance none⟩
    rw [myOrElse_none, myOrElse_none, myOrElse_none, myOrElse_none, myOrElse_none]
  | cons q t ih =>
    intro acc
    obtain ⟨i, h⟩ := q
    rw [List.foldl_cons, ih]
    by_cases hne : h = ""
    · subst hne
      simp [Icici.colStep, firstIdx_cons, myOrElse]
    · show Icici.ColIdx.mk _ _ _ _ _ = Icici.ColIdx.mk _ _ _ _ _
      unfold Icici.colStep
      rw [if_neg hne]
      rw [colField_step Icici.dateKw i h t acc.date hne,
          colField_step Icici.descKw i h t acc.description hne,
          colField_step Icici.debitKw i h t acc.debit hne,
          colField_step Icici.creditKw i h t acc.credit hne,
          colField_step Icici.balanceKw i h t acc.balance hne]

theorem icici_findColIndices_char (l : List String) :
    Icici.findColIndices l =
      ⟨firstIdx Icici.dateKw (enumFromN 0 l),
       firstIdx Icici.descKw (enumFromN 0 l),
       firstIdx Icici.debitKw (enumFromN 0 l),
       firstIdx Icici.creditKw (enumFromN 0 l),
       firstIdx Icici.balanceKw (enumFromN 0 l)⟩ := by
  unfold Icici.findColIndices
  rw [icici_colFold_char]
  rfl

/-! ### Helper lemmas: SBI mapping invariants -/

theorem sbi_lookup_append_self (m : List (Nat × String)) (i : Nat) (v : String)
    (h : Sbi.lookupIdx m i = none) : Sbi.lookupIdx (m ++ [(i, v)]) i = some v := by
  unfold Sbi.lookupIdx at h ⊢
  induction m with
  | nil => simp
  | cons p t ih =>
    rw [List.cons_append]
    cases hp : (decide (p.1 = i)) with
    | true =>
      rw [List.find?_cons_of_pos t (by simpa using hp)] at h
      simp at h
    | false =>
      rw [List.find?_cons_of_neg t (by simpa using hp)] at h
      rw [List.find?_cons_of_neg (t ++ [(i, v)]) (by simpa using hp)]
      exact ih h

theorem sbi_lookup_none_not_mem (m : List (Nat × String)) (i : Nat)
    (h : Sbi.lookupIdx m i = none) : i ∉ m.map Prod.fst := by
  unfold Sbi.lookupIdx at h
  have hf : m.find? (fun p => decide (p.1 = i)) = none := by
    cases hf : m.find? (fun p => decide (p.1 = i)) with
    | none => rfl
    | some q => rw [hf] at h; cases h
  intro hmem
  obtain ⟨q, hq, hq2⟩ := List.mem_map.mp hmem
  have := List.find?_eq_none.mp hf q hq
  simp [hq2] at this

theorem sbi_scanKeyword_cases (kw colName : String) (m : List (Nat × String)) :
    ∀ cells : List (Nat × String),
      (Sbi.scanKeyword kw colName m cells).1 = m ∨
      ∃ i, Sbi.lookupIdx m i = none ∧
        Sbi.scanKeyword kw colName m cells = (m ++ [(i, colName)], i) := by
  intro cells
  induction cells with
  | nil => left; rfl
  | cons q rest ih =>
    obtain ⟨i, cell⟩ := q
    cases hc : (pyIn kw cell && (Sbi.lookupIdx m i).isNone) with
    | true =>
      right
      refine ⟨i, Option.isNone_iff_eq_none.mp (Bool.and_elim_right hc), ?_⟩
      simp [Sbi.scanKeyword, hc]
    | false =>
      cases rest with
      | nil => left; simp [Sbi.scanKeyword, hc]
      | cons q2 rest2 =>
        have hstep : Sbi.scanKeyword kw colName m ((i, cell) :: q2 :: rest2) =
            Sbi.scanKeyword kw colName m (q2 :: rest2) := by
          simp [Sbi.scanKeyword, hc]
        rw [hstep]
        exact ih

theorem sbi_scanKeywords_cases (colName : String) (cells : List (Nat × String)) :
    ∀ (kws : List String) (m : List (Nat × String)),
      Sbi.scanKeywords colName cells kws m = m ∨
      ∃ i, Sbi.lookupIdx m i = none ∧
        Sbi.scanKeywords colName cells kws m = m ++ [(i, colName)] := by
  intro kws
  induction kws with
  | nil => intro m; left; rfl
  | cons kw rest ih =>
    intro m
    rcases sbi_scanKeyword_cases kw colName m cells with h1 | ⟨i, hni, heq⟩
    · by_cases hbr : Sbi.lookupIdx (Sbi.scanKeyword kw colName m cells).1
          (Sbi.scanKeyword kw colName m cells).2 = some colName
      · left
        simp only [Sbi.scanKeywords]
        rw [if_pos hbr]
        exact h1
      · have : Sbi.scanKeywords colName cells (kw :: rest) m =
            Sbi.scanKeywords colName cells rest m := by
          simp only [Sbi.scanKeywords]
          rw [if_neg hbr, h1]
        rw [this]
        exact ih m
    · right
      refine ⟨i, hni, ?_⟩
      simp only [Sbi.scanKeywords]
      rw [heq]
      rw [if_pos (by simpa using sbi_lookup_append_self m i colName hni)]

theorem sbi_scan_fold_inv :
    ∀ (cols : List (String × List String)) (cells m : List (Nat × String)),
      (m.map Prod.fst).Nodup → (m.map Prod.snd).Nodup →
      (∀ c ∈ cols, ∀ v ∈ m.map Prod.snd, v ≠ c.1) →
      (cols.map Prod.fst).Nodup →
      ((cols.foldl (fun m2 c => Sbi.scanKeywords c.1 cells c.2 m2) m).map Prod.fst).Nodup ∧
      ((cols.foldl (fun m2 c => Sbi.scanKeywords c.1 cells c.2 m2) m).map Prod.snd).Nodup ∧
      ∀ v ∈ (cols.foldl (fun m2 c => Sbi.scanKeywords c.1 cells c.2 m2) m).map Prod.snd,
        v ∈ m.map Prod.snd ∨ v ∈ cols.map Prod.fst := by
  intro cols
  induction cols with
  | nil =>
    intro cells m h1 h2 _ _
    exact ⟨h1, h2, fun v hv => Or.inl hv⟩
  | cons c rest ih =>
    intro cells m h1 h2 havoid hnames
    obtain ⟨name, kws⟩ := c
    rw [List.foldl_cons]
    have hnames2 : (rest.map Prod.fst).Nodup := (List.nodup_cons.mp hnames).2
    have hname_nin : name ∉ rest.map Prod.fst := by
      have := (List.nodup_cons.mp hnames).1
      simpa using this
    rcases sbi_scanKeywords_cases name cells kws m with heq | ⟨i, hni, heq⟩
    · show ((rest.foldl _ (Sbi.scanKeywords name cells kws m)).map Prod.fst).Nodup ∧ _
      rw [heq]
      have hres := ih cells m h1 h2
        (fun c2 hc2 v hv => havoid c2 (List.mem_cons_of_mem _ hc2) v hv) hnames2
      exact ⟨hres.1, hres.2.1, fun v hv =>
        (hres.2.2 v hv).elim Or.inl (fun h => Or.inr (List.mem_cons_of_mem _ h))⟩
    · show ((rest.foldl _ (Sbi.scanKeywords name cells kws m)).map Prod.fst).Nodup ∧ _
      rw [heq]
      have hk1 : ((m ++ [(i, name)]).map Prod.fst).Nodup := by
        rw [List.map_append]
        rw [List.nodup_append]
        refine ⟨h1, by simp, ?_⟩
        intro x hx
        simp only [List.map_cons, List.map_nil, List.mem_cons, List.not_mem_nil, or_false]
        intro hxi
        exact absurd (hxi ▸ hx) (sbi_lookup_none_not_mem m i hni)
      have hname_nin_vals : name ∉ m.map Prod.snd := by
        intro hmem
        exact absurd rfl (havoid (name, kws) (List.mem_cons_self _ _) name hmem)
      have hk2 : ((m ++ [(i, name)]).map Prod.snd).Nodup := by
        rw [List.map_append]
        rw [List.nodup_append]
        refine ⟨h2, by simp, ?_⟩
        intro x hx
        simp only [List.map_cons, List.map_nil, List.mem_cons, List.not_mem_nil, or_false]
        intro hxn
        exact absurd (hxn ▸ hx) hname_nin_vals
      have hk3 : ∀ c2 ∈ rest, ∀ v ∈ (m ++ [(i, name)]).map Prod.snd, v ≠ c2.1 := by
        intro c2 hc2 v hv
        rw [List.map_append] at hv
        rcases List.mem_append.mp hv with hvm | hvn
        · exact havoid c2 (List.mem_cons_of_mem _ hc2) v hvm
        · have hvname : v = name := by simpa using hvn
          subst hvname
          intro hvc
          exact hname_nin (hvc ▸ List.mem_map_of_mem Prod.fst hc2)
      have hres := ih cells (m ++ [(i, name)]) hk1 hk2 hk3 hnames2
      refine ⟨hres.1, hres.2.1, fun v hv => ?_⟩
      rcases hres.2.2 v hv with hvm | hvr
      · rw [List.map_append] at hvm
        rcases List.mem_append.mp hvm with hvm2 | hvn
        · exact Or.inl hvm2
        · have : v = name := by simpa using hvn
          exact Or.inr (this ▸ List.mem_cons_self _ _)
      · exact Or.inr (List.mem_cons_of_mem _ hvr)

theorem sbi_rowMapping_inv (row : List (Option String)) :
    ((Sbi.rowMapping row).map Prod.fst).Nodup ∧ ((Sbi.rowMapping row).map Prod.snd).Nodup := by
  unfold Sbi.rowMapping Sbi.tempMapping
  have := sbi_scan_fold_inv Sbi.keywordMap (enumFromN 0 (row.map Sbi.cleanCell)) []
    (by simp) (by simp) (by simp) (by decide)
  exact ⟨this.1, this.2.1⟩

/-! ### Helper lemmas: lone-dash cells -/

theorem numKeep_of_wsB {x : Char} (h : wsB x = true) : Sbi.numKeep x = false := by
  have hx : ((x = ' ' ∨ x = '\t') ∨ x = '\n') ∨ x = '\r' := by
    simpa [wsB] using h
  rcases hx with ((h1 | h1) | h1) | h1 <;> subst h1 <;> decide

theorem sbi_keepNum_of_dash {s : String}
    (h : charStrip (removeAll [','] s.data) = ['-']) : Sbi.keepNumChars s = "-" := by
  have h1 : removeAll [','] s.data = s.data.filter (fun c => !(c = ',')) :=
    removeAll_single ',' s.data
  obtain ⟨a, b, hdecomp, ha, hb⟩ := charStrip_decomp (removeAll [','] s.data)
  rw [h] at hdecomp
  have h2 : s.data.filter Sbi.numKeep =
      (s.data.filter (fun c => !(c = ','))).filter Sbi.numKeep := by
    rw [List.filter_filter]
    have hpt : (fun c => Sbi.numKeep c && !(c = ',')) = Sbi.numKeep := by
      funext c
      by_cases hc : c = ','
      · subst hc; decide
      · simp [hc]
    rw [hpt]
  show String.mk (s.data.filter Sbi.numKeep) = "-"
  rw [h2, ← h1, hdecomp]
  rw [List.filter_append, List.filter_append]
  have hfa : a.filter Sbi.numKeep = [] :=
    List.filter_eq_nil_iff.mpr (fun x hx => by simp [numKeep_of_wsB (ha x hx)])
  have hfb : b.filter Sbi.numKeep = [] :=
    List.filter_eq_nil_iff.mpr (fun x hx => by simp [numKeep_of_wsB (hb x hx)])
  rw [hfa, hfb]
  decide

theorem icici_dash_clean {s : String}
    (h : charStrip (removeAll [','] s.data) = ['-']) :
    Icici.cleanNumericCell (.str s) = none := by
  have hdot : ('.' : Char) ∉ removeAll [','] s.data := by
    intro hmem
    have hmem2 := mem_charStrip (by decide) hmem
    rw [h] at hmem2
    simp at hmem2
  have e2 : sRemoveAll (sRemoveAll s ",") "..." = sRemoveAll s "," := by
    show String.mk (removeAll "...".data (removeAll ",".data s.data)) =
      String.mk (removeAll ",".data s.data)
    have h3 : "...".data = '.' :: ['.', '.'] := rfl
    rw [h3]
    rw [removeAll_not_head '.' ['.', '.'] _ hdot]
  have e3 : pyStrip (sRemoveAll s ",") = "-" := by
    show String.mk (charStrip (removeAll ",".data s.data)) = "-"
    rw [show removeAll ",".data s.data = removeAll [','] s.data from rfl, h]
  simp only [Icici.cleanNumericCell, pyStrOf]
  rw [e2, e3]
  simp

theorem sbi_dash_zero {s : String}
    (h : charStrip (removeAll [','] s.data) = ['-']) :
    Sbi.numericClean (some (some s)) = 0 := by
  simp only [Sbi.numericClean]
  rw [sbi_keepNum_of_dash h]
  have : parsePyFloat "-" = none := by decide
  simp [this]

/-! ### Helper lemmas: error analysis of the ICICI reconciliation -/

theorem eMapM_error_mem {f : α → Except String β} :
    ∀ {l : List α} {e : String}, eMapM f l = .error e → ∃ a ∈ l, f a = .error e := by
  intro l
  induction l with
  | nil => intro e h; cases h
  | cons a t ih =>
    intro e h
    unfold eMapM at h
    cases hfa : f a with
    | error e2 =>
      rw [hfa] at h
      injection h with he
      exact ⟨a, List.mem_cons_self _ _, by rw [hfa, he]⟩
    | ok b =>
      rw [hfa] at h
      cases ht : eMapM f t with
      | error e2 =>
        rw [ht] at h
        injection h with he
        obtain ⟨a2, ha2, hfa2⟩ := ih (ht.trans (by rw [he]))
        exact ⟨a2, List.mem_cons_of_mem _ ha2, hfa2⟩
      | ok bs => rw [ht] at h; cases h

theorem icici_castNum_error {v : Icici.OutCell} {e : String}
    (h : Icici.castNum v = .error e) : e = "ValueError" := by
  cases v with
  | null => cases h
  | num q => cases h
  | txt s =>
    cases hp : parsePyFloat (pyStrip s) with
    | none =>
      simp only [Icici.castNum, hp] at h
      injection h with he
      exact he.symm
    | some q =>
      simp only [Icici.castNum, hp] at h
      cases h

theorem icici_castCol_error {rs : List Icici.CRec} {name : String} {isNum : Bool} {e : String}
    (h : Icici.castCol rs name isNum = .error e) : e = "ValueError" := by
  unfold Icici.castCol at h
  cases isNum with
  | true =>
    rw [if_pos rfl] at h
    obtain ⟨v, _, hv⟩ := eMapM_error_mem h
    exact icici_castNum_error hv
  | false => rw [if_neg (by simp)] at h; cases h

theorem icici_reconcile_error {csv : Option (List (String × Bool))} {rs : List Icici.CRec}
    {msg : String} (h : Icici.reconcile csv rs = .error msg) :
    msg = "FileNotFoundError" ∨ msg = "KeyError" ∨ msg = "ValueError" := by
  cases csv with
  | none =>
    simp only [Icici.reconcile] at h
    injection h with he
    exact Or.inl he.symm
  | some sch =>
    simp only [Icici.reconcile] at h
    by_cases hall : sch.all (fun c => Icici.fiveColsB c.1) = true
    · rw [if_pos hall] at h
      obtain ⟨c, _, hc⟩ := eMapM_error_mem h
      cases hcast : Icici.castCol rs c.1 c.2 with
      | error e2 =>
        rw [hcast] at hc
        injection hc with he
        exact Or.inr (Or.inr (he ▸ icici_castCol_error hcast))
      | ok vs => rw [hcast] at hc; cases hc
    · rw [if_neg hall] at h
      injection h with he
      exact Or.inr (Or.inl he.symm)

/-- C1 counterexample: the claim says a cell that trims (after comma
removal) to exactly `"-"` always becomes null in the output table, never
0.0.  The SBI parser's numeric cleaning ends in `fillna(0.0)`, so the
lone-dash Withdrawal cell of this statement row is emitted as the number
0, not as null. -/
theorem c1_counterexample :
    Sbi.parse (.ok [[[
      [some "Txn Date", some "Particulars", some "Withdrawal", some "Deposit",
       some "Closing Balance"],
      [some "01/01/2025", some "PAYMENT", some "-", some "", some "5000"]]]]) =
      [⟨(1, 1, 2025), "PAYMENT", 0, 0, 5000⟩] := by decide

/-- C1 amended: for every cell whose content, after trimming and removal
of thousands separators, is exactly `"-"`, the ICICI numeric normalizer
yields null (never 0, never an exception), while the SBI numeric
normalizer yields the number 0.0 (never an exception). -/
theorem c1_amended (s : String) (h : pyStrip (sRemoveAll s ",") = "-") :
    Icici.cleanNumericCell (.str s) = none ∧ Sbi.numericClean (some (some s)) = 0 := by
  have hchar : charStrip (removeAll [','] s.data) = ['-'] := congrArg String.data h
  exact ⟨icici_dash_clean hchar, sbi_dash_zero hchar⟩

/-- Witness for C1: the cell `" -,"` trims to a lone dash; ICICI maps it
to null and SBI maps it to 0. -/
theorem c1_amended_witness :
    pyStrip (sRemoveAll " -," ",") = "-" ∧
      (Icici.cleanNumericCell (.str " -,") = none ∧
        Sbi.numericClean (some (some " -,")) = 0) :=
  ⟨by decide, c1_amended " -," (by decide)⟩

/-- C2: the claim (and the source's own comments) describe a
numeric-rightmost heuristic for 6–7-cell fallback rows.  The guard
`if len(r) >= 5` captures every length-normalized row, so the heuristic
block is unreachable: every fallback row is mapped positionally.  On the
claim's own 7-cell row the code puts 100 into Debit and the empty cell
into Credit instead of applying the sign rule. -/
theorem c2_heuristic_dead :
    Icici.fallbackRec
        (["01/01/2025", "PAYMENT", "100", "", "5000", "extra", "junk"].map some) =
      ⟨some "01/01/2025", some "PAYMENT", some "100", some "", some "5000"⟩ ∧
    ∀ row : List (Option String),
      Icici.fallbackRec row = Icici.positional5 (Icici.padTrunc row) :=
  ⟨by decide, icici_fallback_positional⟩

/-- C3 counterexample: the claim says a row qualifies as header exactly
when Date and Description are both mapped (or Date, Balance and two
others).  A row mapping exactly Date and Description does not qualify
under the SBI rule, which wants Date with three mapped columns, or
Date, Description and Balance. -/
theorem c3_counterexample :
    Sbi.rowMapping [some "Date", some "Description"] =
      [(0, "Date"), (1, "Description")] ∧
    Sbi.isLikelyHeader (Sbi.rowMapping [some "Date", some "Description"]) = false := by
  constructor
  · decide
  · decide

/-- C3 amended: the SBI scan returns the first row (from the top) whose
mapping satisfies the code's rule — Date plus at least three mapped
columns, or Date, Description and Balance all mapped; earlier rows all
fail the rule, data rows start immediately after the header row, and a
table with no qualifying row contributes nothing (it is skipped, not
handled positionally). -/
theorem c3_amended :
    (∀ (t : List (List (Option String))) (i : Nat) (m : List (Nat × String)),
        Sbi.findHeader t = some (i, m) →
        ∃ r, t[i]? = some r ∧ m = Sbi.rowMapping r ∧ Sbi.isLikelyHeader m = true ∧
          ∀ j r2, j < i → t[j]? = some r2 →
            Sbi.isLikelyHeader (Sbi.rowMapping r2) = false) ∧
    (∀ (acc : List Sbi.Tx) (t : List (List (Option String))),
        Sbi.findHeader t = none → Sbi.tableStep acc t = acc) ∧
    (∀ (acc : List Sbi.Tx) (t : List (List (Option String))) (i : Nat)
        (m : List (Nat × String)), Sbi.findHeader t = some (i, m) →
        Sbi.tableStep acc t = acc ++ (t.drop (i + 1)).filterMap (Sbi.rowTx m)) := by
  refine ⟨?_, ?_, ?_⟩
  · intro t i m h
    obtain ⟨j, hij, r, hget, hm, hq, hmin⟩ := sbi_findHeaderAux_spec t 0 i m h
    have hji : j = i := by omega
    subst hji
    exact ⟨r, hget, hm, hq, hmin⟩
  · intro acc t h
    unfold Sbi.tableStep
    rw [h]
  · intro acc t i m h
    rw [show Sbi.tableStep acc t = (t.drop (i + 1)).foldl (emitStep (Sbi.rowTx m)) acc by
      unfold Sbi.tableStep; rw [h]]
    exact foldl_emit_eq _ _ _

/-- Witness for C3: on `c3Table` the scan stops at index 1 with the full
mapping, and row 0 indeed fails the rule. -/
theorem c3_amended_witness :
    ∃ r, c3Table[1]? = some r ∧
      [(0, "Date"), (1, "Description"), (2, "Debit Amt"), (3, "Credit Amt"),
        (4, "Balance")] = Sbi.rowMapping r ∧
      Sbi.isLikelyHeader
        [(0, "Date"), (1, "Description"), (2, "Debit Amt"), (3, "Credit Amt"),
          (4, "Balance")] = true ∧
      ∀ j r2, j < 1 → c3Table[j]? = some r2 →
        Sbi.isLikelyHeader (Sbi.rowMapping r2) = false :=
  c3_amended.1 c3Table 1
    [(0, "Date"), (1, "Description"), (2, "Debit Amt"), (3, "Credit Amt"), (4, "Balance")]
    (by decide)

/-- C4 counterexample: on the claim's header row the ICICI matcher leaves
Description unmapped — `"particulars"` contains neither `"description"`
nor `"narration"` — so the complete claimed map is not produced. -/
theorem c4_counterexample :
    (Icici.findColIndices (Icici.normalizeHeader
      [some "Txn Date", some "Particulars", some "Withdrawal", some "Deposit",
       some "Closing Balance"])).description = none := by decide

/-- C4 amended: on the header row
`["Txn Date","Particulars","Withdrawal","Deposit","Closing Balance"]`,
the SBI matcher produces the complete map Date→0, Description→1,
Debit→2, Credit→3, Balance→4, while the ICICI matcher produces
Date→0, Debit→2, Credit→3, Balance→4 with Description unmapped. -/
theorem c4_amended :
    Sbi.rowMapping
        [some "Txn Date", some "Particulars", some "Withdrawal", some "Deposit",
         some "Closing Balance"] =
      [(0, "Date"), (1, "Description"), (2, "Debit Amt"), (3, "Credit Amt"),
        (4, "Balance")] ∧
    Icici.findColIndices (Icici.normalizeHeader
        [some "Txn Date", some "Particulars", some "Withdrawal", some "Deposit",
         some "Closing Balance"]) =
      ⟨some 0, none, some 2, some 3, some 4⟩ := by
  constructor
  · decide
  · decide

/-- C5 counterexample: the claim says every row whose Description contains
"total" is rejected from the output.  The ICICI parser has no such
rejection: a mapped table row with Description "Total" (and no Date) is
emitted into the reconciled output table. -/
theorem c5_counterexample :
    Icici.parse (.ok [[[
        [some "Date", some "Narration", some "Debit", some "Credit", some "Balance"],
        [some "", some "Total", some "", some "", some "900"]]]])
      (some [("Date", false), ("Description", false), ("Debit Amt", true),
             ("Credit Amt", true), ("Balance", true)]) =
      .ok [("Date", [.null]), ("Description", [.txt "Total"]), ("Debit Amt", [.null]),
           ("Credit Amt", [.null]), ("Balance", [.num 900])] ∧
    pyIn "total" (pyLower "Total") = true := by
  constructor
  · rfl
  · decide

/-- C5 amended: the rejection rules hold in the SBI parser only.  Every
transaction the SBI collector emits has a description free of the four
footer keywords, and every row of the cleaned SBI output avoids the
empty-description/all-zero shape; the ICICI parser performs no such
rejection (see the counterexample). -/
theorem c5_amended :
    (∀ (t : List (List (Option String))) (tx : Sbi.Tx), tx ∈ Sbi.tableRecs t →
        Sbi.kwHit tx = false) ∧
    (∀ (txs : List Sbi.Tx) (r : Sbi.SRow), r ∈ Sbi.cleanAll txs →
        Sbi.junk r = false) := by
  constructor
  · intro t tx htx
    unfold Sbi.tableRecs at htx
    cases hf : Sbi.findHeader t with
    | none => rw [hf] at htx; cases htx
    | some im =>
      obtain ⟨i, m⟩ := im
      rw [hf] at htx
      obtain ⟨row, _, hrow⟩ := List.mem_filterMap.mp htx
      rw [Sbi.rowTx] at hrow
      split at hrow
      next hcond =>
        injection hrow with htx2
        rw [← htx2]
        have h2 := Bool.and_elim_right hcond
        simpa using h2
      next => cases hrow
  · intro txs r hr
    unfold Sbi.cleanAll at hr
    have := List.of_mem_filter hr
    simpa using this

/-- Witness for C5: the one transaction collected from `c5Table` carries
no footer keyword. -/
theorem c5_amended_witness :
    (⟨some (some "01/01/2025"), some (some "PAYMENT"), some (some "100"),
        some (some ""), some (some "5000")⟩ : Sbi.Tx) ∈ Sbi.tableRecs c5Table ∧
    Sbi.kwHit ⟨some (some "01/01/2025"), some (some "PAYMENT"), some (some "100"),
        some (some ""), some (some "5000")⟩ = false :=
  ⟨by decide, c5_amended.1 c5Table _ (by decide)⟩

/-- C6 counterexample: the claim says a missing or unreadable input file
propagates to the caller of `parse`.  The SBI parse wraps the whole
extraction in `try/except Exception` and returns the empty table instead
of propagating. -/
theorem c6_counterexample :
    Sbi.parse (.error "FileNotFoundError") = [] := by rfl

/-- C6 amended: data-quality problems raise nothing (both embeddings are
total functions on rows and cells); the ICICI parse propagates an
unreadable-input error to its caller, while the SBI parse absorbs every
extraction error into an empty table; on a readable PDF the only errors
the ICICI parse surfaces are the reconciliation ones (missing reference
CSV, unknown column, or dtype coercion failure). -/
theorem c6_amended :
    (∀ (e : String) (csv : Option (List (String × Bool))),
        Icici.parse (.error e) csv = .error e) ∧
    (∀ e : String, Sbi.parse (.error e) = []) ∧
    (∀ (pages : List (List (List (List (Option String)))))
        (csv : Option (List (String × Bool))) (msg : String),
        Icici.parse (.ok pages) csv = .error msg →
        msg = "FileNotFoundError" ∨ msg = "KeyError" ∨ msg = "ValueError") := by
  refine ⟨fun e csv => rfl, fun e => rfl, ?_⟩
  intro pages csv msg h
  exact icici_reconcile_error h

/-- Witness for C6: a missing reference CSV on an otherwise readable
(empty) PDF produces one of the three reconciliation errors. -/
theorem c6_amended_witness :
    "FileNotFoundError" = "FileNotFoundError" ∨ "FileNotFoundError" = "KeyError" ∨
      "FileNotFoundError" = "ValueError" :=
  c6_amended.2.2 [] none "FileNotFoundError" (by rfl)

/-- C7 counterexample: the claim says re-running type coercion on an
already-coerced table is a no-op.  Re-running the ICICI string normalizer
on a coerced-to-null cell turns the null into the literal text `"<NA>"`
(`astype(str)` renders `pd.NA` that way), so coercion is not
idempotent. -/
theorem c7_counterexample :
    Icici.cleanStringCell (Icici.cleanStringCell (.str "")) ≠
      Icici.cleanStringCell (.str "") := by decide

/-- C7 amended: the ICICI string normalizer is idempotent exactly on the
cells it maps to non-null values — a non-null coerced cell is a fixed
point of a second application — but an already-coerced null cell becomes
the literal string `"<NA>"`, so the full coercion is a no-op only on
tables whose string columns carry no nulls. -/
theorem c7_amended :
    (∀ (c : PCell) (s : String), Icici.cleanStringCell c = .str s →
        Icici.cleanStringCell (.str s) = .str s) ∧
    Icici.cleanStringCell .pdNA = .str "<NA>" :=
  ⟨fun _ _ h => icici_cleanString_fix h, by decide⟩

/-- Witness for C7: the coerced cell `"x"` is a fixed point. -/
theorem c7_amended_witness :
    Icici.cleanStringCell (.str "x") = .str "x" :=
  c7_amended.1 (.str "x") "x" (by decide)

/-- C8 counterexample: the claim says each physical index maps to at most
one logical column.  In the ICICI matcher a single header cell containing
keywords of two families is claimed by both: `"Withdrawal/Deposit"` at
index 2 becomes both Debit and Credit. -/
theorem c8_counterexample :
    (Icici.findColIndices (Icici.normalizeHeader
      [some "Date", some "Narration", some "Withdrawal/Deposit",
       some "Balance"])).debit = some 2 ∧
    (Icici.findColIndices (Icici.normalizeHeader
      [some "Date", some "Narration", some "Withdrawal/Deposit",
       some "Balance"])).credit = some 2 := by
  constructor
  · decide
  · decide

/-- C8 amended: the SBI mapping satisfies both invariants — no physical
index is claimed twice (a claimed index is never reassigned) and no
logical column claims two indices; the ICICI matcher guarantees only the
logical-to-physical direction: each keyword family resolves to the first
nonempty matching cell, but one physical index may be claimed by several
families (see the counterexample). -/
theorem c8_amended :
    (∀ row : List (Option String),
        ((Sbi.rowMapping row).map Prod.fst).Nodup ∧
          ((Sbi.rowMapping row).map Prod.snd).Nodup) ∧
    (∀ l : List String, Icici.findColIndices l =
        ⟨firstIdx Icici.dateKw (enumFromN 0 l), firstIdx Icici.descKw (enumFromN 0 l),
         firstIdx Icici.debitKw (enumFromN 0 l), firstIdx Icici.creditKw (enumFromN 0 l),
         firstIdx Icici.balanceKw (enumFromN 0 l)⟩) :=
  ⟨sbi_rowMapping_inv, icici_findColIndices_char⟩

/-- C9: records appear in exactly the traversal order.  Both collectors
equal the in-order concatenation of per-page, per-table record lists
(each per-table list being an order-preserving `filterMap` over its data
rows), and both cleaning stages distribute over concatenation, so if one
emitted row precedes another in the page/table/row traversal, its record
precedes the other's in the output. -/
theorem c9_order :
    (∀ pages, Icici.collect pages =
        listJoinMap (fun pg => listJoinMap Icici.tableRecs pg) pages) ∧
    (∀ pages, Sbi.collect pages =
        listJoinMap (fun pg => listJoinMap Sbi.tableRecs pg) pages) ∧
    (∀ a b : List Icici.Rec,
        Icici.cleanAll (a ++ b) = Icici.cleanAll a ++ Icici.cleanAll b) ∧
    (∀ a b : List Sbi.Tx,
        Sbi.cleanAll (a ++ b) = Sbi.cleanAll a ++ Sbi.cleanAll b) :=
  ⟨icici_collect_eq, sbi_collect_eq, icici_cleanAll_append, sbi_cleanAll_append⟩

